import Mathlib

/-!
Verification development for the bun-http-proxy reverse proxy.

The definitions below are a shallow embedding of the proxy implementation
(the most complete iteration of the server, together with the path
normalizer and the content rewriter).  JavaScript strings are modelled as
Lean strings (lists of characters); the built-in string methods used by
the source (split on a one-character separator, trim, toLowerCase,
toUpperCase, startsWith, slice, join) are modelled by the js-named
helpers.  The WHATWG URL constructor is modelled by parseURL and
resolveURL, restricted to http and https URLs without percent-encoding,
userinfo or default-port elision; this covers every URL form the proxy
manipulates.  Fetch Headers objects are modelled as ordered lists of
name-value pairs whose names are stored lowercase, and plain JavaScript
record objects as ordered association lists with exact string keys.
-/

namespace BunProxy

/-! Models of the JavaScript string primitives used by the source. -/

/-- Model of the JavaScript split method with a one-character separator:
splitting the empty string yields one empty piece, and every occurrence of
the separator starts a new piece. -/
def jsSplitChar (c : Char) : List Char → List (List Char)
  | [] => [[]]
  | x :: xs =>
    if x == c then [] :: jsSplitChar c xs
    else
      match jsSplitChar c xs with
      | [] => [[x]]
      | s :: rest => (x :: s) :: rest

/-- Model of the JavaScript Array join method at the character level. -/
def joinChar (sep : Char) : List (List Char) → List Char
  | [] => []
  | [s] => s
  | s :: rest => s ++ sep :: joinChar sep rest

/-- Model of the JavaScript Array join method on strings. -/
def joinSep (sep : String) : List String → String
  | [] => ""
  | [s] => s
  | s :: rest => s ++ sep ++ joinSep sep rest

/-- String-level split on a one-character separator. -/
def jsSplit (c : Char) (s : String) : List String :=
  (jsSplitChar c s.data).map (fun l => String.mk l)

/-- Model of the JavaScript trim method (whitespace stripped from both
ends). -/
def jsTrim (s : String) : String :=
  String.mk (((s.data.dropWhile Char.isWhitespace).reverse.dropWhile Char.isWhitespace).reverse)

/-- Model of the JavaScript toLowerCase method (ASCII case folding). -/
def jsToLower (s : String) : String :=
  String.mk (s.data.map Char.toLower)

/-- Model of the JavaScript toUpperCase method (ASCII case folding). -/
def jsToUpper (s : String) : String :=
  String.mk (s.data.map Char.toUpper)

/-- Model of the JavaScript startsWith method. -/
def jsStartsWith (s pre : String) : Bool :=
  pre.data.isPrefixOf s.data

/-- Model of the JavaScript slice method with one nonnegative index. -/
def strDrop (s : String) (n : Nat) : String :=
  String.mk (s.data.drop n)

/-- Model of the JavaScript includes method (substring containment). -/
def containsSub (s pat : String) : Bool :=
  decide (pat.data <:+: s.data)

/-! The URL model.  A URL value carries the protocol with its trailing
colon, the host with an optional port, the pathname, and the search and
hash components stored with their leading delimiter or empty. -/

structure URL where
  protocol : String
  host : String
  pathname : String
  search : String
  hash : String
deriving DecidableEq, Repr

/-- The origin of a URL: scheme, separator, host and port. -/
def urlOrigin (u : URL) : String :=
  u.protocol ++ "//" ++ u.host

/-- The hostname of a URL: the host with any port stripped. -/
def urlHostname (u : URL) : String :=
  String.mk (u.host.data.takeWhile (· != ':'))

/-- The serialization of a URL, as produced by the WHATWG toString. -/
def urlToString (u : URL) : String :=
  u.protocol ++ "//" ++ u.host ++ u.pathname ++ u.search ++ u.hash

/-- Split a path-query-fragment character sequence into its three parts. -/
def splitPathSearchHash (cs : List Char) : String × String × String :=
  let path := cs.takeWhile (fun c => c != '?' && c != '#')
  let rest := cs.drop path.length
  let search := rest.takeWhile (· != '#')
  let hash := rest.drop search.length
  (String.mk path, String.mk search, String.mk hash)

/-- Model of the WHATWG URL constructor on an absolute http or https URL
string.  Percent-encoding, userinfo, IPv6 hosts and default-port elision
are outside the model; an empty path serializes as a single slash, as in
the WHATWG standard. -/
def parseURL (s : String) : Option URL :=
  let parsed : Option (String × List Char) :=
    if jsStartsWith s "http://" then some ("http:", s.data.drop 7)
    else if jsStartsWith s "https://" then some ("https:", s.data.drop 8)
    else none
  match parsed with
  | none => none
  | some (scheme, rest) =>
    let hostChars := rest.takeWhile (fun c => c != '/' && c != '?' && c != '#')
    if hostChars = [] then none
    else
      let (path, search, hash) := splitPathSearchHash (rest.drop hostChars.length)
      some { protocol := scheme, host := String.mk hostChars,
             pathname := if path = "" then "/" else path,
             search := search, hash := hash }

/-- The directory part of a pathname: everything up to and including the
last slash. -/
def dirPart (p : String) : String :=
  String.mk ((p.data.reverse.dropWhile (· != '/')).reverse)

/-- Model of the WHATWG URL constructor with a base URL, as invoked by the
Location rewrite.  Absolute URLs stand alone; protocol-relative, rooted,
query-only, fragment-only and plain relative references are resolved
against the base (dot-segment normalization is outside the model). -/
def resolveURL (s : String) (base : URL) : Option URL :=
  match parseURL s with
  | some u => some u
  | none =>
    if jsStartsWith s "//" then parseURL (base.protocol ++ s)
    else if jsStartsWith s "/" then
      let (path, search, hash) := splitPathSearchHash s.data
      some { base with pathname := path, search := search, hash := hash }
    else if jsStartsWith s "?" then
      let search := String.mk (s.data.takeWhile (· != '#'))
      some { base with search := search, hash := String.mk (s.data.drop search.length) }
    else if jsStartsWith s "#" then
      some { base with hash := s }
    else if s = "" then
      some { base with hash := "" }
    else
      let (path, search, hash) := splitPathSearchHash s.data
      some { base with pathname := dirPart base.pathname ++ path, search := search, hash := hash }

/-! The path normalizer from utils/pathname.ts. -/

/-- Translation of formatPathname: split the pathname on slashes, drop the
empty segments, and rejoin behind a single leading slash. -/
def formatPathname (pathname : String) : String :=
  "/" ++ joinSep "/" ((jsSplit '/' pathname).filter (fun s => s != ""))

/-! Helpers of the proxy server source file. -/

/-- Translation of the fixed hop-by-hop header name set. -/
def hopByHopHeaderNames : List String :=
  ["connection", "keep-alive", "proxy-authenticate", "proxy-authorization",
   "te", "trailers", "transfer-encoding", "upgrade", "content-length"]

/-- Translation of stripBasePath: an empty base leaves the path (defaulted
to a slash); the base itself maps to a slash; a path under the base loses
the base prefix; anything else passes through, with the empty path
defaulted to a slash. -/
def stripBasePath (pathname basePath : String) : String :=
  if basePath = "" then (if pathname = "" then "/" else pathname)
  else if pathname = basePath then "/"
  else if jsStartsWith pathname (basePath ++ "/") then
    (if strDrop pathname basePath.length = "" then "/"
     else strDrop pathname basePath.length)
  else (if pathname = "" then "/" else pathname)

/-- Translation of the attribute key computation inside the loop of
rewriteSetCookieForClient: the text before the first equals sign as
carved out by indexOf and slice, trimmed and lowercased; without an
equals sign the whole attribute is the key. -/
def cookieAttrKey (attr : String) : String :=
  jsToLower (jsTrim (String.mk (attr.data.takeWhile (· != '='))))

/-- Translation of the attribute value computation inside the loop of
rewriteSetCookieForClient: the trimmed text after the first equals sign
as carved out by indexOf and slice, empty when there is none. -/
def cookieAttrValue (attr : String) : String :=
  if attr.data.contains '=' then
    jsTrim (String.mk (attr.data.dropWhile (· != '=')).tail)
  else ""

/-- Translation of the per-attribute body of the loop inside
rewriteSetCookieForClient: a Domain attribute is replaced with the client
hostname when one is known, a Path attribute with the base-stripped value
defaulted to a slash, and any other attribute is pushed unchanged. -/
def cookieAttrRewrite (clientHostname basePath : String) (attr : String) : String :=
  if cookieAttrKey attr = "domain" ∧ clientHostname ≠ "" then "Domain=" ++ clientHostname
  else if cookieAttrKey attr = "path" then
    "Path=" ++ stripBasePath (if cookieAttrValue attr = "" then "/" else cookieAttrValue attr)
      basePath
  else attr

/-- Translation of rewriteSetCookieForClient: split on semicolons, keep
the trimmed head, rewrite each trimmed nonempty attribute, and rejoin. -/
def rewriteSetCookieForClient (setCookie clientHostname basePath : String) : String :=
  match jsSplit ';' setCookie with
  | [] => setCookie
  | head :: parts =>
    if head = "" then setCookie
    else
      joinSep "; " (jsTrim head ::
        ((parts.map jsTrim).filter (fun a => a != "")).map
          (cookieAttrRewrite clientHostname basePath))

/-- Per-cookie rewriting of the whole Set-Cookie list, as performed by the
proxy response builder: every value is rewritten independently. -/
def rewriteAllSetCookies (cookies : List String) (clientHostname basePath : String) : List String :=
  cookies.map (fun c => rewriteSetCookieForClient c clientHostname basePath)

/-- Translation of parseHost: trim the header, take the text before the
first colon as the hostname and the text between the first two colons as
the port. -/
structure HostParts where
  host : String
  hostname : String
  port : String
deriving DecidableEq, Repr

def parseHost (host : Option String) : HostParts :=
  match host with
  | none => ⟨"", "", ""⟩
  | some h =>
    if jsTrim h = "" then ⟨"", "", ""⟩
    else
      ⟨jsTrim h, String.mk ((jsTrim h).data.takeWhile (· != ':')),
        if (jsTrim h).data.contains ':' then
          String.mk ((((jsTrim h).data.dropWhile (· != ':')).tail).takeWhile (· != ':'))
        else ""⟩

/-- Translation of the hostname resolution in the request handler: the
parsed Host header hostname, with the request URL hostname as fallback
when it is empty. -/
def resolveHostname (hostHeader : Option String) (urlHostname : String) : String :=
  let hn := (parseHost hostHeader).hostname
  if hn = "" then urlHostname else hn

/-- Translation of the routing table lookup: an exact, case-sensitive key
match on the record of routes. -/
def findRoute (routes : List (String × String)) (hostname : String) : Option String :=
  (routes.find? (fun kv => kv.1 == hostname)).map (·.2)

/-- The observable outcome of the request handler before the upstream
call: the CONNECT rejection, the 400 response, the 404 response, or a
proxied call to the resolved target. -/
inductive HandleOutcome where
  | notSupported : HandleOutcome
  | badRequest : HandleOutcome
  | notFound : HandleOutcome
  | proxyTo : String → HandleOutcome
deriving DecidableEq, Repr

/-- Translation of the dispatch part of the fetch handler: CONNECT is
rejected, an unresolvable hostname yields 400, a missing route 404, and
otherwise the request is proxied to the matched target. -/
def fetchHandle (method : String) (hostHeader : Option String)
    (urlHostname : String) (routes : List (String × String)) : HandleOutcome :=
  if jsToUpper method = "CONNECT" then .notSupported
  else
    let resolvedHostname := resolveHostname hostHeader urlHostname
    if resolvedHostname = "" then .badRequest
    else
      match findRoute routes resolvedHostname with
      | none => .notFound
      | some target => .proxyTo target

/-! Models of the fetch Headers object (ordered pairs, names stored
lowercase) and of a plain JavaScript record object used for the upstream
header bag (ordered association list, exact string keys). -/

/-- Build a Headers value from raw entries, normalizing names to
lowercase as the fetch standard does. -/
def mkHeaders (entries : List (String × String)) : List (String × String) :=
  entries.map (fun kv => (jsToLower kv.1, kv.2))

/-- The values stored under a header name. -/
def hGetValues (name : String) (hs : List (String × String)) : List String :=
  (hs.filter (fun kv => kv.1 == jsToLower name)).map (·.2)

/-- Model of Headers get: the stored values combined with a comma, or
none when the name is absent. -/
def hGet (name : String) (hs : List (String × String)) : Option String :=
  match hGetValues name hs with
  | [] => none
  | vs => some (joinSep ", " vs)

/-- Model of Headers delete: every entry under the name is removed. -/
def hDelete (name : String) (hs : List (String × String)) : List (String × String) :=
  hs.filter (fun kv => kv.1 != jsToLower name)

/-- Model of reading a property of a record object. -/
def objGet (k : String) (o : List (String × String)) : Option String :=
  (o.find? (fun kv => kv.1 == k)).map (·.2)

/-- Model of assigning a property of a record object: an existing key
keeps its position, a new key is appended. -/
def objSet (k v : String) (o : List (String × String)) : List (String × String) :=
  if o.any (fun kv => kv.1 == k) then
    o.map (fun kv => if kv.1 == k then (k, v) else kv)
  else o ++ [(k, v)]

/-- Model of deleting a property of a record object. -/
def objDelete (k : String) (o : List (String × String)) : List (String × String) :=
  o.filter (fun kv => kv.1 != k)

/-- Translation of the upstream header construction in the proxy method:
copy the inbound entries whose lowercased name is not in the fixed
hop-by-hop set, force the Host header to the upstream host, drop the
conditional-request and compression headers, add the forwarding headers,
and point a proxy-hostname Origin header at the upstream origin. -/
def buildUpstreamHeaders (inbound : List (String × String)) (upstreamHost : String)
    (clientHost proto matchedHost : String) (clientIp : Option String)
    (upstreamOrigin : String) : List (String × String) :=
  let o := inbound.foldl
    (fun acc kv =>
      if hopByHopHeaderNames.contains (jsToLower kv.1) then acc
      else objSet kv.1 kv.2 acc) []
  let o := objSet "host" upstreamHost o
  let o := objDelete "accept-encoding" o
  let o := objDelete "if-none-match" o
  let o := objDelete "if-modified-since" o
  let o :=
    if clientHost ≠ "" then
      objSet "x-forwarded-server" matchedHost
        (objSet "x-forwarded-proto" proto (objSet "x-forwarded-host" clientHost o))
    else o
  let o :=
    match clientIp with
    | some ip =>
      objSet "x-forwarded-for"
        (match objGet "x-forwarded-for" o with
         | some prev => prev ++ ", " ++ ip
         | none => ip) o
    | none => o
  match objGet "origin" o with
  | some og =>
    match parseURL og with
    | some originUrl =>
      if urlHostname originUrl = matchedHost then objSet "origin" upstreamOrigin o else o
    | none => o
  | none => o

/-- The loop body of deleteConnectionListedHeaders: a nonempty normalized
name listed in the Connection value is deleted. -/
def connDeleteStep (acc : List (String × String)) (nm : String) : List (String × String) :=
  if jsToLower (jsTrim nm) ≠ "" then hDelete (jsToLower (jsTrim nm)) acc else acc

/-- Translation of deleteConnectionListedHeaders: read the Connection
value, split it on commas, and delete every nonempty trimmed lowercased
name it lists. -/
def deleteConnectionListedHeaders (hs : List (String × String)) : List (String × String) :=
  match hGet "connection" hs with
  | none => hs
  | some connection => (jsSplit ',' connection).foldl connDeleteStep hs

/-- Translation of the basePath computation in the proxy method: the
target pathname with a sole slash mapping to the empty base and one
trailing slash removed otherwise. -/
def routeBasePath (targetPathname : String) : String :=
  if targetPathname = "/" then ""
  else
    match targetPathname.data.getLast? with
    | some '/' => String.mk targetPathname.data.dropLast
    | _ => targetPathname

/-- Translation of the upstream URL construction: the target URL with the
pathname replaced by the normalized concatenation of the base path and
the inbound pathname, and the inbound search and hash carried over. -/
def buildUpstreamUrl (target : URL) (incomingPathname incomingSearch incomingHash : String) : URL :=
  { target with
    pathname := formatPathname (routeBasePath target.pathname ++ incomingPathname),
    search := incomingSearch, hash := incomingHash }

/-- Translation of the Location header rewrite: resolve the value against
the upstream URL; when the resolved origin matches the upstream origin,
emit the client origin with the base path stripped from the resolved
pathname and the resolved search and hash carried over; otherwise, or on
any parse failure, the header value is left untouched. -/
def rewriteLocationHeader (location : String) (upstreamUrl : URL)
    (clientOrigin basePath : String) : String :=
  match resolveURL location upstreamUrl with
  | none => location
  | some resolvedLoc =>
    if urlOrigin resolvedLoc = urlOrigin upstreamUrl then
      match parseURL clientOrigin with
      | none => location
      | some clientLoc =>
        urlToString { clientLoc with
          pathname := stripBasePath resolvedLoc.pathname basePath,
          search := resolvedLoc.search, hash := resolvedLoc.hash }
    else location

/-! The content rewriter from the rewriter module. -/

/-- A buffered HTTP response: status, status text, headers, and a body
that is absent when the underlying stream is null. -/
structure Resp where
  status : Nat
  statusText : String
  headers : List (String × String)
  body : Option String
deriving DecidableEq, Repr

instance : DecidableEq (Except String String) := fun x y =>
  match x, y with
  | .ok a, .ok b =>
    if h : a = b then isTrue (h ▸ rfl)
    else isFalse (fun hh => h (by injection hh))
  | .ok _, .error _ => isFalse (fun hh => Except.noConfusion hh)
  | .error _, .ok _ => isFalse (fun hh => Except.noConfusion hh)
  | .error a, .error b =>
    if h : a = b then isTrue (h ▸ rfl)
    else isFalse (fun hh => h (by injection hh))

/-- A response whose body is a stream still to be pumped to the client:
the body is absent, or a stream whose consumption either delivers the
full text or raises — an HTML parse failure inside the HTMLRewriter
handlers, or a chunk decode failure inside the transform-stream callback.
Such a deferred failure fires only while the body streams, after the
transform dispatch has already returned. -/
structure StreamResp where
  status : Nat
  statusText : String
  headers : List (String × String)
  body : Option (Except String String)
deriving DecidableEq, Repr

/-- Translation of the rewriteText pass with the chunk decoder and the
origin substitution explicit: the content-length header is removed at
call time, but decoding and substitution run inside the stream transform
callback, so the pass itself always returns successfully and a decode
failure is deferred into the streamed body instead of being raised where
the dispatch could catch it. -/
def rewriteTextPass (decode : String → Except String String) (substitute : String → String)
    (response : StreamResp) : Except String StreamResp :=
  .ok { response with
    headers := hDelete "content-length" response.headers,
    body := response.body.map (fun b => b.bind (fun chunk => (decode chunk).map substitute)) }

/-- Translation of ContentRewriter transform over streaming bodies:
redirects, bodyless and not-modified responses pass through; HTML and the
textual content types dispatch to their rewriting pass; only a failure
raised by the pass itself, before the body streams, is caught so that the
untransformed response is returned — a failure inside the body stream of
a successfully returned response escapes this dispatch. -/
def rewriterTransformStreaming (rewriteHtml rewriteText : StreamResp → Except String StreamResp)
    (response : StreamResp) : StreamResp :=
  if response.body = none ∨ response.status = 204 ∨ response.status = 304 ∨
      (300 ≤ response.status ∧ response.status < 400) then response
  else
    if containsSub ((hGet "content-type" response.headers).getD "") "text/html" then
      match rewriteHtml response with
      | .ok r => r
      | .error _ => response
    else if (containsSub ((hGet "content-type" response.headers).getD "") "text/css" ||
        containsSub ((hGet "content-type" response.headers).getD "") "javascript" ||
        containsSub ((hGet "content-type" response.headers).getD "") "application/json" ||
        containsSub ((hGet "content-type" response.headers).getD "") "text/plain") then
      match rewriteText response with
      | .ok r => r
      | .error _ => response
    else response

/-- Translation of the content rewriting gate at the end of the proxy
method: the rewriter transform is applied only inside the double guard on
the rewriteContent option, an absent option standing for undefined. -/
def applyContentRewriting (rewriteContent : Option Bool) (transform : Resp → Resp)
    (downstreamRes : Resp) : Resp :=
  if rewriteContent ≠ some false then
    if rewriteContent = some true then transform downstreamRes else downstreamRes
  else downstreamRes

/-- An upstream header bag is hop-by-hop free when no stored key folds to
a member of the fixed hop-by-hop set. -/
def hopFree (o : List (String × String)) : Prop :=
  ∀ kv ∈ o, hopByHopHeaderNames.contains (jsToLower kv.1) = false

/-! Helper lemmas about the string primitives. -/

theorem str_eq_empty_iff (s : String) : s = "" ↔ s.data = [] := by
  constructor
  · intro h
    rw [h]
  · intro h
    cases s
    simp only at h
    subst h
    rfl

theorem str_data_inj {s t : String} (h : s.data = t.data) : s = t := by
  cases s
  cases t
  simp only at h
  subst h
  rfl

theorem str_append_assoc (a b c : String) : a ++ b ++ c = a ++ (b ++ c) := by
  apply str_data_inj
  simp [List.append_assoc]

theorem str_nil_append (s : String) : "" ++ s = s := by
  apply str_data_inj
  simp

/-- A split never yields an empty list of pieces. -/
theorem jsSplitChar_ne_nil (c : Char) (l : List Char) : jsSplitChar c l ≠ [] := by
  induction l with
  | nil => simp [jsSplitChar]
  | cons x xs ih =>
    simp only [jsSplitChar]
    by_cases h : (x == c) = true
    · simp [h]
    · simp only [h]
      cases hr : jsSplitChar c xs with
      | nil => exact absurd hr ih
      | cons s rest => simp [h, hr]

/-- The separator never occurs inside a piece of the split. -/
theorem not_mem_of_mem_jsSplitChar {c : Char} {l seg : List Char}
    (h : seg ∈ jsSplitChar c l) : c ∉ seg := by
  induction l generalizing seg with
  | nil =>
    simp [jsSplitChar] at h
    simp [h]
  | cons x xs ih =>
    simp only [jsSplitChar] at h
    by_cases hxc : (x == c) = true
    · simp only [hxc, if_true, List.mem_cons] at h
      rcases h with h | h
      · simp [h]
      · exact ih h
    · simp only [hxc, if_false] at h
      cases hr : jsSplitChar c xs with
      | nil => exact absurd hr (jsSplitChar_ne_nil c xs)
      | cons s rest =>
        rw [hr] at h
        rcases List.mem_cons.mp h with h1 | h1
        · subst h1
          intro hmem
          rcases List.mem_cons.mp hmem with h2 | h2
          · rw [h2] at hxc
            simp at hxc
          · exact ih (hr ▸ List.mem_cons_self s rest) h2
        · exact ih (hr ▸ List.mem_cons_of_mem s h1)

/-- Joining the pieces of a split with the separator restores the
original. -/
theorem joinChar_jsSplitChar (c : Char) (l : List Char) :
    joinChar c (jsSplitChar c l) = l := by
  induction l with
  | nil => rfl
  | cons x xs ih =>
    simp only [jsSplitChar]
    by_cases hxc : (x == c) = true
    · simp only [hxc, if_true]
      have hx : x = c := by simpa using hxc
      cases hr : jsSplitChar c xs with
      | nil => exact absurd hr (jsSplitChar_ne_nil c xs)
      | cons s rest =>
        rw [hr] at ih
        subst hx
        cases rest with
        | nil => simp [joinChar, ← ih]
        | cons r rs => simp [joinChar, ← ih]
    · simp only [hxc, if_false]
      cases hr : jsSplitChar c xs with
      | nil => exact absurd hr (jsSplitChar_ne_nil c xs)
      | cons s rest =>
        rw [hr] at ih
        cases rest with
        | nil =>
          simp only [joinChar] at ih
          simp [joinChar, ih]
        | cons r rs =>
          simp only [joinChar] at ih ⊢
          rw [List.cons_append, ih]

/-- Shape of a split: either the separator is absent and the input is the
sole piece, or the first piece is the text before the first separator and
the rest is the split of the text after it. -/
theorem jsSplitChar_shape (c : Char) (l : List Char) :
    (c ∉ l ∧ jsSplitChar c l = [l]) ∨
    (∃ t, l.dropWhile (fun x => x != c) = c :: t ∧
      jsSplitChar c l = l.takeWhile (fun x => x != c) :: jsSplitChar c t) := by
  induction l with
  | nil => exact Or.inl ⟨by simp, rfl⟩
  | cons x xs ih =>
    by_cases hxc : x = c
    · right
      refine ⟨xs, ?_, ?_⟩
      · subst hxc
        simp [List.dropWhile_cons]
      · subst hxc
        simp [jsSplitChar, List.takeWhile_cons]
    · have hbne : (x != c) = true := by simpa using hxc
      have hbeq : (x == c) = false := by simpa using hxc
      rcases ih with ⟨hmem, heq⟩ | ⟨t, hdrop, heq⟩
      · left
        constructor
        · simp only [List.mem_cons, not_or]
          exact ⟨fun hh => hxc hh.symm, hmem⟩
        · simp [jsSplitChar, hbeq, heq]
      · right
        refine ⟨t, ?_, ?_⟩
        · simp [List.dropWhile_cons, hbne, hdrop]
        · simp only [jsSplitChar, hbeq, if_false, heq]
          simp [List.takeWhile_cons, hbne]

/-- Taking while a predicate holds on a list where it holds everywhere is
the identity. -/
theorem takeWhile_eq_self_of_all {p : Char → Bool} {l : List Char}
    (h : ∀ a ∈ l, p a = true) : l.takeWhile p = l := by
  have h2 := @List.takeWhile_append_of_pos Char p l [] h
  simpa using h2

/-- Joining string pieces is joining their characters. -/
theorem joinSep_mk (c : Char) (L : List (List Char)) :
    joinSep (String.mk [c]) (L.map String.mk) = String.mk (joinChar c L) := by
  induction L with
  | nil => rfl
  | cons s rest ih =>
    cases rest with
    | nil => rfl
    | cons r rs =>
      simp only [List.map_cons, joinSep, joinChar] at ih ⊢
      rw [ih]
      apply str_data_inj
      simp

/-- A string made of characters is empty exactly when the characters
are. -/
theorem str_mk_bne_empty (l : List Char) : (String.mk l != "") = (l != []) := by
  cases l with
  | nil => rfl
  | cons a as => rfl

/-- The characters of a normalized pathname: a slash followed by the join
of the nonempty pieces. -/
theorem formatPathname_data (p : String) :
    (formatPathname p).data =
      '/' :: joinChar '/' ((jsSplitChar '/' p.data).filter (fun seg => seg != [])) := by
  unfold formatPathname jsSplit
  rw [List.filter_map]
  have hpred : ((fun s : String => s != "") ∘ fun l => String.mk l) =
      (fun seg : List Char => seg != []) := by
    funext seg
    exact str_mk_bne_empty seg
  rw [hpred]
  rw [show ("/" : String) = String.mk ['/'] from rfl]
  rw [joinSep_mk]
  rfl

/-- A join of nonempty separator-free pieces never opens with the
separator. -/
theorem joinChar_head_ne_sep (c : Char) (L : List (List Char))
    (hL : ∀ s ∈ L, s ≠ [] ∧ c ∉ s) : ∀ r, joinChar c L ≠ c :: r := by
  intro r
  cases L with
  | nil => simp [joinChar]
  | cons s rest =>
    obtain ⟨hne, hmem⟩ := hL s (List.mem_cons_self s rest)
    cases s with
    | nil => exact absurd rfl hne
    | cons a as =>
      have ha : a ≠ c := fun hh => hmem (hh ▸ List.mem_cons_self a as)
      cases rest with
      | nil =>
        simp only [joinChar]
        intro hh
        injection hh with h1 _
        exact ha h1
      | cons r2 rs =>
        simp only [joinChar]
        rw [List.cons_append]
        intro hh
        injection hh with h1 _
        exact ha h1

/-- Claim C9: the path normalizer maps a doubled-slash path with a
trailing slash to its collapsed form, maps the empty path to a single
slash, and always emits exactly one leading slash. -/
theorem claim_C9_format_pathname :
    formatPathname "//a//b/" = "/a/b" ∧ formatPathname "" = "/" ∧
    ∀ p, jsStartsWith (formatPathname p) "/" = true ∧
      jsStartsWith (formatPathname p) "//" = false := by
  refine ⟨by decide, by decide, ?_⟩
  intro p
  have hdata := formatPathname_data p
  constructor
  · unfold jsStartsWith
    rw [List.isPrefixOf_iff_prefix, hdata]
    exact ⟨_, rfl⟩
  · unfold jsStartsWith
    rw [Bool.eq_false_iff]
    intro hb
    have hpre := List.isPrefixOf_iff_prefix.mp hb
    rw [hdata] at hpre
    obtain ⟨t, ht⟩ := hpre
    rw [show ("//" : String).data = ['/', '/'] from rfl] at ht
    rw [List.cons_append, List.cons_append, List.nil_append] at ht
    injection ht with h1 h2
    refine joinChar_head_ne_sep '/' _ ?_ t h2.symm
    intro s hs
    have hmem := List.mem_filter.mp hs
    constructor
    · intro hnil
      rw [hnil] at hmem
      exact Bool.noConfusion hmem.2
    · exact not_mem_of_mem_jsSplitChar hmem.1

/-- Claim C8 counterexample: the empty path does not start with the base
path, yet stripBasePath maps it to a slash instead of leaving it
unchanged, refuting the third claimed equation as universally stated. -/
theorem claim_C8_counterexample :
    jsStartsWith "" "/api" = false ∧ stripBasePath "" "/api" = "/" ∧ ("/" : String) ≠ "" := by
  decide

/-- Claim C8 amended: the base maps to a slash, the base plus a
slash-led suffix loses the base, and a nonempty path that does not start
with the base passes through unchanged. -/
theorem claim_C8_strip_base_path :
    (∀ b, stripBasePath b b = "/") ∧
    (∀ b x, stripBasePath (b ++ "/" ++ x) b = "/" ++ x) ∧
    (∀ p b, p ≠ "" → jsStartsWith p b = false → stripBasePath p b = p) := by
  refine ⟨?_, ?_, ?_⟩
  · intro b
    by_cases hb : b = ""
    · subst hb
      rfl
    · unfold stripBasePath
      rw [if_neg hb, if_pos rfl]
  · intro b x
    by_cases hb : b = ""
    · subst hb
      have hne : ("" ++ "/" ++ x) ≠ "" := by
        intro hh
        have hd := (str_eq_empty_iff _).mp hh
        simp at hd
      unfold stripBasePath
      rw [if_pos rfl, if_neg hne, str_nil_append]
    · have hneqb : (b ++ "/" ++ x) ≠ b := by
        intro hh
        have hd := congrArg String.data hh
        simp [List.append_assoc] at hd
      have hstarts : jsStartsWith (b ++ "/" ++ x) (b ++ "/") = true := by
        unfold jsStartsWith
        rw [List.isPrefixOf_iff_prefix]
        exact ⟨x.data, rfl⟩
      have hdrop : strDrop (b ++ "/" ++ x) b.length = "/" ++ x := by
        apply str_data_inj
        show ((b.data ++ ['/']) ++ x.data).drop b.data.length = '/' :: x.data
        rw [List.append_assoc]
        exact List.drop_left b.data ('/' :: x.data)
      have hdne : strDrop (b ++ "/" ++ x) b.length ≠ "" := by
        rw [hdrop]
        intro hh
        have hd := (str_eq_empty_iff _).mp hh
        simp at hd
      unfold stripBasePath
      rw [if_neg hb, if_neg hneqb, if_pos hstarts, if_neg hdne, hdrop]
  · intro p b hp hpre
    by_cases hb : b = ""
    · subst hb
      have htrue : jsStartsWith p "" = true := by
        unfold jsStartsWith
        simp
      rw [htrue] at hpre
      exact Bool.noConfusion hpre
    · have hpb : p ≠ b := by
        intro hh
        subst hh
        have htrue : jsStartsWith p p = true := by
          unfold jsStartsWith
          rw [List.isPrefixOf_iff_prefix]
        rw [htrue] at hpre
        exact Bool.noConfusion hpre
      have hps : ¬ (jsStartsWith p (b ++ "/") = true) := by
        intro hq
        have h1 : (b ++ "/").data <+: p.data := List.isPrefixOf_iff_prefix.mp hq
        have h2 : b.data <+: (b ++ "/").data := ⟨['/'], rfl⟩
        have h4 : jsStartsWith p b = true := by
          unfold jsStartsWith
          exact List.isPrefixOf_iff_prefix.mpr (h2.trans h1)
        rw [h4] at hpre
        exact Bool.noConfusion hpre
      unfold stripBasePath
      rw [if_neg hb, if_neg hpb, if_neg hps, if_neg hp]

/-- Witness for the amended claim C8 at a concrete nonempty path outside
the base. -/
theorem claim_C8_witness : stripBasePath "/zzz" "/api" = "/zzz" :=
  claim_C8_strip_base_path.2.2 "/zzz" "/api" (by decide) (by decide)

/-- Claim C3: the upstream URL keeps the target origin, its pathname is
the normalized concatenation of the route base path and the inbound
pathname, the inbound query is carried through unchanged, and the
scenario route and request produce the expected upstream call. -/
theorem claim_C3_upstream_url :
    (∀ t ps s hs, urlOrigin (buildUpstreamUrl t ps s hs) = urlOrigin t ∧
      (buildUpstreamUrl t ps s hs).pathname = formatPathname (routeBasePath t.pathname ++ ps) ∧
      (buildUpstreamUrl t ps s hs).search = s) ∧
    parseURL "http://127.0.0.1:9000/api" = some ⟨"http:", "127.0.0.1:9000", "/api", "", ""⟩ ∧
    urlToString (buildUpstreamUrl ⟨"http:", "127.0.0.1:9000", "/api", "", ""⟩ "/items" "?x=1" "") =
      "http://127.0.0.1:9000/api/items?x=1" := by
  refine ⟨?_, by decide, by decide⟩
  intro t ps s hs
  exact ⟨rfl, rfl, rfl⟩

/-- Claim C7 counterexample: a decode failure raised inside the text
rewriting stream is not caught by the dispatch; the rewriter returns the
transformed response whose body fails on consumption instead of the
untransformed response, so the failure reaches the client. -/
theorem claim_C7_counterexample :
    rewriterTransformStreaming
      (rewriteTextPass (fun _ => Except.error "decode") (fun s => s))
      (rewriteTextPass (fun _ => Except.error "decode") (fun s => s))
      ⟨200, "OK", [("content-type", "text/css")], some (Except.ok "css text")⟩ =
      ⟨200, "OK", [("content-type", "text/css")], some (Except.error "decode")⟩ ∧
    (some (Except.error "decode") : Option (Except String String)) ≠ some (Except.ok "css text") := by
  decide

/-- Claim C7 amended: only a failure raised by a rewriting pass itself,
before the body streams, is caught with the untransformed response
returned; a pass that returns successfully is passed through as-is, so on
the textual branch the whole decode-and-substitute outcome, a failure
included, is carried into the client-facing body rather than caught. -/
theorem claim_C7_rewrite_fallback :
    (∀ rewriteHtml rewriteText resp e1 e2, rewriteHtml resp = .error e1 →
      rewriteText resp = .error e2 →
      rewriterTransformStreaming rewriteHtml rewriteText resp = resp) ∧
    (∀ rewriteHtml dec sub resp,
      ¬ (resp.body = none ∨ resp.status = 204 ∨ resp.status = 304 ∨
          (300 ≤ resp.status ∧ resp.status < 400)) →
      containsSub ((hGet "content-type" resp.headers).getD "") "text/html" = false →
      (containsSub ((hGet "content-type" resp.headers).getD "") "text/css" ||
        containsSub ((hGet "content-type" resp.headers).getD "") "javascript" ||
        containsSub ((hGet "content-type" resp.headers).getD "") "application/json" ||
        containsSub ((hGet "content-type" resp.headers).getD "") "text/plain") = true →
      rewriterTransformStreaming rewriteHtml (rewriteTextPass dec sub) resp =
        { resp with
          headers := hDelete "content-length" resp.headers,
          body := resp.body.map (fun b => b.bind (fun chunk => (dec chunk).map sub)) }) := by
  constructor
  · intro rewriteHtml rewriteText resp e1 e2 h1 h2
    unfold rewriterTransformStreaming
    split
    · rfl
    · simp only [h1, h2]
      split
      · rfl
      · split
        · rfl
        · rfl
  · intro rewriteHtml dec sub resp hskip hhtml htext
    unfold rewriterTransformStreaming
    rw [if_neg hskip]
    rw [if_neg (by simp [hhtml])]
    rw [if_pos htext]
    rfl

/-- Witness for the amended claim C7: the catch branch at a concrete HTML
response whose passes both fail at call time, and the escape branch at a
concrete plain-text response whose chunk decoder fails while streaming. -/
theorem claim_C7_witness :
    rewriterTransformStreaming (fun _ => Except.error "parse") (fun _ => Except.error "parse")
      ⟨200, "OK", [("content-type", "text/html")], some (Except.ok "x")⟩ =
      ⟨200, "OK", [("content-type", "text/html")], some (Except.ok "x")⟩ ∧
    rewriterTransformStreaming (fun r => Except.ok r)
      (rewriteTextPass (fun _ => Except.error "bad utf8") (fun s => s))
      ⟨200, "OK", [("content-type", "text/plain")], some (Except.ok "hello")⟩ =
      ⟨200, "OK", [("content-type", "text/plain")], some (Except.error "bad utf8")⟩ :=
  ⟨claim_C7_rewrite_fallback.1 _ _ _ "parse" "parse" rfl rfl,
   claim_C7_rewrite_fallback.2 _ _ _ _ (by decide) (by decide) (by decide)⟩

/-- Claim C10: the content rewriter runs only under a rewriteContent
option set to true; an omitted or false option leaves the downstream
response, and in particular its body, exactly as built. -/
theorem claim_C10_rewrite_gating :
    (∀ t r, applyContentRewriting none t r = r) ∧
    (∀ t r, applyContentRewriting (some false) t r = r) ∧
    (∀ t r, applyContentRewriting (some true) t r = t r) ∧
    (∀ rc t r, rc ≠ some true → (applyContentRewriting rc t r).body = r.body) := by
  refine ⟨fun t r => rfl, fun t r => rfl, fun t r => rfl, ?_⟩
  intro rc t r hrc
  cases rc with
  | none => rfl
  | some b =>
    cases b with
    | false => rfl
    | true => exact absurd rfl hrc

/-- Witness for claim C10: with the option omitted, a transform that
would replace the body does not run. -/
theorem claim_C10_witness :
    (applyContentRewriting none (fun r => { r with body := some "X" })
      ⟨200, "OK", [], some "B"⟩).body = some "B" :=
  claim_C10_rewrite_gating.2.2.2 none _ _ (by decide)

/-- Claim C6 counterexample: a request without a Host header is not
answered 400 when the request URL carries a hostname; with a matching
route the handler proceeds to the upstream call. -/
theorem claim_C6_counterexample :
    fetchHandle "GET" none "shop.local" [("shop.local", "http://127.0.0.1:9000/api")] =
      .proxyTo "http://127.0.0.1:9000/api" := by
  decide

/-- Claim C6 amended: a non-CONNECT request whose Host header is absent
is answered 400 with no upstream call exactly when the request URL
hostname fallback is also empty. -/
theorem claim_C6_missing_host :
    ∀ m routes, jsToUpper m ≠ "CONNECT" →
      fetchHandle m none "" routes = .badRequest ∧
      ∀ t, fetchHandle m none "" routes ≠ .proxyTo t := by
  intro m routes hm
  have hb : fetchHandle m none "" routes = .badRequest := by
    unfold fetchHandle
    rw [if_neg hm]
    rfl
  refine ⟨hb, fun t hc => ?_⟩
  rw [hb] at hc
  exact HandleOutcome.noConfusion hc

/-- Witness for the amended claim C6 at a concrete request. -/
theorem claim_C6_witness : fetchHandle "GET" none "" [] = HandleOutcome.badRequest :=
  (claim_C6_missing_host "GET" [] (by decide)).1

/-- The hostname parsed from a nonblank Host header is the trimmed text
before the first colon. -/
theorem parseHost_hostname (s : String) (hne : jsTrim s ≠ "") :
    (parseHost (some s)).hostname = String.mk ((jsTrim s).data.takeWhile (· != ':')) := by
  simp only [parseHost]
  rw [if_neg hne]

/-- Claim C5 counterexample: a Host header differing from the registered
hostname only by letter case resolves to no route, because the lookup
does not case-fold. -/
theorem claim_C5_counterexample :
    findRoute [("shop.local", "http://127.0.0.1:9000/api")]
      (resolveHostname (some "SHOP.LOCAL") "SHOP.LOCAL") = none := by
  decide

/-- Claim C5 amended: for a registered hostname that is nonempty, trimmed
and colon-free, a Host header equal to it, or carrying any port suffix,
resolves to the registered route; the lookup strips whitespace and the
port but performs no case folding. -/
theorem claim_C5_host_normalization :
    ∀ (h p t u : String) (routes : List (String × String)),
      h ≠ "" → jsTrim h = h → ':' ∉ h.data →
      jsTrim (h ++ ":" ++ p) = h ++ ":" ++ p →
      findRoute ((h, t) :: routes) (resolveHostname (some (h ++ ":" ++ p)) u) = some t ∧
      findRoute ((h, t) :: routes) (resolveHostname (some h) u) = some t := by
  intro h p t u routes hne htrim hcolon htrimhp
  have hall : ∀ a ∈ h.data, (a != ':') = true := by
    intro a ha
    simp only [bne_iff_ne, ne_eq]
    intro hh
    exact hcolon (hh ▸ ha)
  have hdata : (h ++ ":" ++ p).data = h.data ++ ':' :: p.data := by
    show (h.data ++ [':']) ++ p.data = h.data ++ ':' :: p.data
    rw [List.append_assoc]
    rfl
  have hnehp : (h ++ ":" ++ p) ≠ "" := by
    intro hh
    have hd := (str_eq_empty_iff _).mp hh
    rw [hdata] at hd
    simp at hd
  have htake : h.data.takeWhile (· != ':') = h.data := takeWhile_eq_self_of_all hall
  have hhost1 : (parseHost (some (h ++ ":" ++ p))).hostname = h := by
    rw [parseHost_hostname _ (by rw [htrimhp]; exact hnehp), htrimhp, hdata]
    rw [List.takeWhile_append_of_pos hall]
    rw [List.takeWhile_cons_of_neg (by simp)]
    rw [List.append_nil]
  have hhost2 : (parseHost (some h)).hostname = h := by
    rw [parseHost_hostname _ (by rw [htrim]; exact hne), htrim, htake]
  have hres1 : resolveHostname (some (h ++ ":" ++ p)) u = h := by
    unfold resolveHostname
    simp only [hhost1]
    rw [if_neg hne]
  have hres2 : resolveHostname (some h) u = h := by
    unfold resolveHostname
    simp only [hhost2]
    rw [if_neg hne]
  have hfind : findRoute ((h, t) :: routes) h = some t := by
    unfold findRoute
    rw [List.find?_cons_of_pos _ (by simp)]
    rfl
  exact ⟨by rw [hres1, hfind], by rw [hres2, hfind]⟩

/-- Witness for the amended claim C5 at a concrete route and ported Host
header. -/
theorem claim_C5_witness :
    findRoute [("shop.local", "http://127.0.0.1:9000/api")]
      (resolveHostname (some ("shop.local" ++ ":" ++ "8080")) "") =
      some "http://127.0.0.1:9000/api" :=
  (claim_C5_host_normalization "shop.local" "8080" "http://127.0.0.1:9000/api" "" []
    (by decide) (by decide) (by decide) (by decide)).1

/-! Helper lemmas for the hop-by-hop header claims. -/

theorem hopFree_nil : hopFree [] := by
  intro kv hkv
  exact absurd hkv (List.not_mem_nil kv)

theorem hopFree_objSet {k v : String} {o : List (String × String)}
    (hk : hopByHopHeaderNames.contains (jsToLower k) = false) (ho : hopFree o) :
    hopFree (objSet k v o) := by
  intro kv hkv
  unfold objSet at hkv
  split at hkv
  · rcases List.mem_map.mp hkv with ⟨kv0, hkv0, heq⟩
    by_cases hc : (kv0.1 == k) = true
    · rw [if_pos hc] at heq
      rw [← heq]
      exact hk
    · rw [if_neg hc] at heq
      rw [← heq]
      exact ho kv0 hkv0
  · rcases List.mem_append.mp hkv with hmem | hmem
    · exact ho kv hmem
    · have heq : kv = (k, v) := by simpa using hmem
      rw [heq]
      exact hk

theorem hopFree_objDelete {o : List (String × String)} (ho : hopFree o) (k : String) :
    hopFree (objDelete k o) := by
  intro kv hkv
  exact ho kv (List.mem_filter.mp hkv).1

theorem hopFree_fold (inbound : List (String × String)) :
    ∀ acc, hopFree acc →
      hopFree (inbound.foldl
        (fun acc kv =>
          if hopByHopHeaderNames.contains (jsToLower kv.1) then acc
          else objSet kv.1 kv.2 acc) acc) := by
  induction inbound with
  | nil =>
    intro acc h
    exact h
  | cons kv rest ih =>
    intro acc hacc
    simp only [List.foldl_cons]
    by_cases hc : hopByHopHeaderNames.contains (jsToLower kv.1) = true
    · rw [if_pos hc]
      exact ih acc hacc
    · have hcf : hopByHopHeaderNames.contains (jsToLower kv.1) = false := by
        simpa using hc
      rw [if_neg hc]
      exact ih _ (hopFree_objSet hcf hacc)

theorem objGet_eq_none_of_hopFree {o : List (String × String)} (ho : hopFree o) {n : String}
    (hn : hopByHopHeaderNames.contains (jsToLower n) = true) : objGet n o = none := by
  unfold objGet
  cases hf : o.find? (fun kv => kv.1 == n) with
  | none => rfl
  | some kv =>
    exfalso
    have hmem := List.mem_of_find?_eq_some hf
    have hp : kv.1 = n := by simpa using List.find?_some hf
    have hfree := ho kv hmem
    rw [hp, hn] at hfree
    exact Bool.noConfusion hfree

theorem hGetValues_eq_nil_iff (n : String) (hs : List (String × String)) :
    hGetValues n hs = [] ↔ ∀ kv ∈ hs, (kv.1 == jsToLower n) = false := by
  unfold hGetValues
  constructor
  · intro h kv hkv
    cases hq : (kv.1 == jsToLower n) with
    | false => rfl
    | true =>
      exfalso
      have hmem : kv ∈ hs.filter (fun kv => kv.1 == jsToLower n) :=
        List.mem_filter.mpr ⟨hkv, hq⟩
      have hnil : hs.filter (fun kv => kv.1 == jsToLower n) = [] := by
        cases hff : hs.filter (fun kv => kv.1 == jsToLower n) with
        | nil => rfl
        | cons a l =>
          rw [hff] at h
          simp at h
      rw [hnil] at hmem
      exact absurd hmem (List.not_mem_nil kv)
  · intro h
    rw [List.filter_eq_nil_iff.mpr (fun a ha => by rw [h a ha]; simp)]
    rfl

theorem hGet_eq_none_of_values {n : String} {hs : List (String × String)}
    (h : hGetValues n hs = []) : hGet n hs = none := by
  unfold hGet
  rw [h]

theorem connDelete_preserve (names : List String) :
    ∀ hs n, hGetValues n hs = [] → hGetValues n (names.foldl connDeleteStep hs) = [] := by
  induction names with
  | nil =>
    intro hs n h
    exact h
  | cons y ys ih =>
    intro hs n h
    simp only [List.foldl_cons]
    apply ih
    unfold connDeleteStep
    split
    · rw [hGetValues_eq_nil_iff] at h ⊢
      intro kv hkv
      exact h kv (List.mem_filter.mp hkv).1
    · exact h

theorem connDelete_mem (names : List String) :
    ∀ hs nm, nm ∈ names → jsToLower (jsTrim nm) ≠ "" →
      hGetValues (jsToLower (jsTrim nm)) (names.foldl connDeleteStep hs) = [] := by
  induction names with
  | nil =>
    intro hs nm h
    exact absurd h (List.not_mem_nil nm)
  | cons y ys ih =>
    intro hs nm hmem hne
    simp only [List.foldl_cons]
    rcases List.mem_cons.mp hmem with heq | hmem2
    · subst heq
      apply connDelete_preserve
      unfold connDeleteStep
      rw [if_pos hne]
      rw [hGetValues_eq_nil_iff]
      intro kv hkv
      have hq := (List.mem_filter.mp hkv).2
      rw [bne_iff_ne] at hq
      exact beq_eq_false_iff_ne.mpr hq
    · exact ih (connDeleteStep hs y) nm hmem2 hne

/-- Claim C4 counterexample: a header named inside the inbound Connection
value is still sent upstream; only the fixed hop-by-hop set is filtered
on the request side. -/
theorem claim_C4_counterexample :
    ("x-foo" ∈ (jsSplit ',' "x-foo").map (fun s => jsToLower (jsTrim s))) ∧
    objGet "x-foo" (buildUpstreamHeaders [("connection", "x-foo"), ("x-foo", "bar")]
      "127.0.0.1:9000" "shop.local" "http" "shop.local" none "http://127.0.0.1:9000") =
      some "bar" := by
  decide

/-- Claim C4 amended: the upstream header bag never contains a fixed
hop-by-hop header under any letter case, while the dynamic deletion of
names listed in a Connection value is applied to the response headers by
deleteConnectionListedHeaders, not to the upstream request. -/
theorem claim_C4_hop_by_hop :
    (∀ inbound uh ch pr mh ip uo n, hopByHopHeaderNames.contains (jsToLower n) = true →
      objGet n (buildUpstreamHeaders inbound uh ch pr mh ip uo) = none) ∧
    (∀ hs connection nm, hGet "connection" hs = some connection →
      nm ∈ jsSplit ',' connection → jsToLower (jsTrim nm) ≠ "" →
      hGet (jsToLower (jsTrim nm)) (deleteConnectionListedHeaders hs) = none) := by
  constructor
  · intro inbound uh ch pr mh ip uo n hn
    apply objGet_eq_none_of_hopFree _ hn
    simp only [buildUpstreamHeaders]
    split
    all_goals split
    all_goals
      repeat
        first
        | exact hopFree_fold inbound [] hopFree_nil
        | apply hopFree_objSet (by decide)
        | apply hopFree_objDelete
        | split
  · intro hs connection nm hconn hmem hne
    unfold deleteConnectionListedHeaders
    rw [hconn]
    exact hGet_eq_none_of_values (connDelete_mem _ hs nm hmem hne)

/-- Witness for the amended claim C4 at a concrete inbound header set
carrying a transfer-encoding header. -/
theorem claim_C4_witness :
    objGet "transfer-encoding" (buildUpstreamHeaders
      [("transfer-encoding", "chunked"), ("accept", "text/html")]
      "127.0.0.1:9000" "shop.local" "http" "shop.local" none "http://127.0.0.1:9000") = none :=
  claim_C4_hop_by_hop.1 _ _ _ _ _ _ _ "transfer-encoding" (by decide)

/-- Claim C2: Scenario D holds; the rewrite keeps the trimmed head and
maps every trimmed nonempty attribute independently, in order; on a
name=value attribute the key is the lowercased trimmed name and the value
the trimmed text after the first equals sign; a Domain attribute becomes
the client hostname, a Path attribute the base-stripped value, and every
other attribute passes through unchanged. -/
theorem claim_C2_set_cookie :
    (rewriteSetCookieForClient "session=abc; Domain=127.0.0.1; Path=/api/account"
      "shop.local" "/api" = "session=abc; Domain=shop.local; Path=/account") ∧
    (∀ s h b head parts, jsSplit ';' s = head :: parts → head ≠ "" →
      rewriteSetCookieForClient s h b =
        joinSep "; " (jsTrim head ::
          ((parts.map jsTrim).filter (fun a => a != "")).map (cookieAttrRewrite h b))) ∧
    (∀ k v : String, '=' ∉ k.data →
      cookieAttrKey (k ++ "=" ++ v) = jsToLower (jsTrim k) ∧
      cookieAttrValue (k ++ "=" ++ v) = jsTrim v) ∧
    (∀ h b attr, cookieAttrKey attr = "domain" → h ≠ "" →
      cookieAttrRewrite h b attr = "Domain=" ++ h) ∧
    (∀ h b attr, cookieAttrKey attr = "path" →
      cookieAttrRewrite h b attr =
        "Path=" ++ stripBasePath
          (if cookieAttrValue attr = "" then "/" else cookieAttrValue attr) b) ∧
    (∀ h b attr, cookieAttrKey attr ≠ "domain" → cookieAttrKey attr ≠ "path" →
      cookieAttrRewrite h b attr = attr) := by
  refine ⟨by decide, ?_, ?_, ?_, ?_, ?_⟩
  · intro s h b head parts hsplit hhead
    unfold rewriteSetCookieForClient
    simp only [hsplit]
    rw [if_neg hhead]
  · intro k v hk
    have hall : ∀ a ∈ k.data, (a != '=') = true := by
      intro a ha
      simp only [bne_iff_ne, ne_eq]
      intro hh
      exact hk (hh ▸ ha)
    have hdata : (k ++ "=" ++ v).data = k.data ++ '=' :: v.data := by
      show (k.data ++ ['=']) ++ v.data = k.data ++ '=' :: v.data
      rw [List.append_assoc]
      rfl
    constructor
    · unfold cookieAttrKey
      rw [hdata, List.takeWhile_append_of_pos hall,
        List.takeWhile_cons_of_neg (by simp), List.append_nil]
    · unfold cookieAttrValue
      have hcont : (k ++ "=" ++ v).data.contains '=' = true := by
        apply List.contains_iff_exists_mem_beq.mpr
        refine ⟨'=', ?_, by simp⟩
        rw [hdata]
        exact List.mem_append_right k.data (List.mem_cons_self '=' v.data)
      rw [if_pos hcont, hdata, List.dropWhile_append_of_pos hall,
        List.dropWhile_cons_of_neg (by simp)]
      rfl
  · intro h b attr hkey hne
    unfold cookieAttrRewrite
    rw [if_pos (And.intro hkey hne)]
  · intro h b attr hkey
    unfold cookieAttrRewrite
    have hnd : ¬ (cookieAttrKey attr = "domain" ∧ h ≠ "") := by
      intro hc
      rw [hkey] at hc
      exact absurd hc.1 (by decide)
    rw [if_neg hnd, if_pos hkey]
  · intro h b attr hd hp
    unfold cookieAttrRewrite
    rw [if_neg (fun hc => hd hc.1), if_neg hp]

/-- Witness for claim C2 at a concrete Domain attribute. -/
theorem claim_C2_witness :
    cookieAttrRewrite "shop.local" "/api" "Domain=127.0.0.1" = "Domain=shop.local" :=
  claim_C2_set_cookie.2.2.2.1 "shop.local" "/api" "Domain=127.0.0.1" (by decide) (by decide)

/-- Claim C1: a Location value whose resolution against the upstream URL
has a different origin passes through untouched; one with the upstream
origin is rewritten to the client origin followed by the base-stripped
resolved pathname with the resolved query and fragment appended; and
Scenario C produces the expected header. -/
theorem claim_C1_location_rewrite :
    (∀ loc up co bp r, resolveURL loc up = some r → urlOrigin r ≠ urlOrigin up →
      rewriteLocationHeader loc up co bp = loc) ∧
    (∀ loc up co bp r c, resolveURL loc up = some r → urlOrigin r = urlOrigin up →
      parseURL co = some c →
      rewriteLocationHeader loc up co bp =
        urlOrigin c ++ stripBasePath r.pathname bp ++ r.search ++ r.hash) ∧
    (rewriteLocationHeader "http://127.0.0.1:9000/api/new"
      ⟨"http:", "127.0.0.1:9000", "/api/items", "", ""⟩ "http://shop.local:8080" "/api" =
      "http://shop.local:8080/new") := by
  refine ⟨?_, ?_, by decide⟩
  · intro loc up co bp r h1 h2
    unfold rewriteLocationHeader
    simp only [h1]
    rw [if_neg h2]
  · intro loc up co bp r c h1 h2 h3
    unfold rewriteLocationHeader
    simp only [h1, h3]
    rw [if_pos h2]
    rfl

/-- Witness for claim C1 at a concrete third-party redirect that resolves
away from the upstream origin and passes through untouched. -/
theorem claim_C1_witness :
    resolveURL "http://evil.example/x" ⟨"http:", "127.0.0.1:9000", "/api/items", "", ""⟩ =
      some ⟨"http:", "evil.example", "/x", "", ""⟩ ∧
    rewriteLocationHeader "http://evil.example/x"
      ⟨"http:", "127.0.0.1:9000", "/api/items", "", ""⟩ "http://shop.local:8080" "/api" =
      "http://evil.example/x" :=
  ⟨by decide, claim_C1_location_rewrite.1 _ _ _ _ ⟨"http:", "evil.example", "/x", "", ""⟩
    (by decide) (by decide)⟩

end BunProxy
